import Mathlib

/-!
Verification of the QuizGenius quiz-normalization, scoring and upload pipeline.

The definitions below are a shallow embedding of the TypeScript source:
  * `src/App.tsx` (the current variant in the repository snapshot; the line
    references below follow it): `mapQuizType`, `normalizeQuizType`, `extractJsonFromContent`,
    `normalizeAnswer`, `normalizeOptions`, `mapJsonQuestionToQuestion`,
    `tryParseJsonQuiz`, `fallbackParseToQuiz`, `handleQuizGenerate`.
  * `src/unnamed/part_001` (QuizResults component): `isAnswerCorrect` and the
    score memo.
  * `src/services/textExtractionService.ts`: `extractTextFromPdf`,
    `extractTextFromUploads`.
  * `src/components/FileUpload.tsx`: `handleSubmit` (PDF page-count gate).

JavaScript built-ins used by the source (`JSON.parse`, `String.prototype.trim`,
regular expressions, `Math.round`) are modelled explicitly below.  Modelling
choices for the built-ins:
  * JS number arithmetic is modelled with exact integers/rationals instead of
    IEEE-754 doubles; `String()` of a non-integral number keeps the source
    literal instead of the canonical double rendering.
  * `\u` escapes denoting lone UTF-16 surrogates decode to U+FFFD (Lean `Char`
    holds scalar values only) and surrogate pairs are not combined.
  * The JS whitespace class is modelled by the common members actually reachable
    in this code base (space, tab, LF, CR, VT, FF, NBSP).
  * `toLowerCase`/`toUpperCase` are modelled on ASCII.
-/

namespace QuizApp

/-! ## Data model (src/types.ts) -/

inductive QuizType
  | MultipleChoice
  | TrueFalse
  | Open
  deriving DecidableEq, Repr

inductive SubjectType
  | Text
  | Math
  deriving DecidableEq, Repr

inductive Language
  | English | Spanish | French | German | Chinese | Japanese | Korean | Dutch | Italian
  deriving DecidableEq, Repr

inductive MathQuizType
  | SimilarExercises
  | ApplicationProblems
  deriving DecidableEq, Repr

inductive Difficulty
  | Easy | Medium | Hard
  deriving DecidableEq, Repr

structure Question where
  question : String
  options : Option (List String)
  answer : String
  explanation : String
  type : QuizType
  deriving DecidableEq, Repr

structure Quiz where
  title : String
  questions : List Question
  deriving DecidableEq, Repr

structure TextQuizOptions where
  numberOfQuestions : Int
  quizType : QuizType
  language : Language
  deriving DecidableEq, Repr

structure MathQuizOptions where
  numberOfQuestions : Int
  mathQuizType : MathQuizType
  difficulty : Difficulty
  language : Language
  deriving DecidableEq, Repr

/-- `QuizOptions = TextQuizOptions | MathQuizOptions`, discriminated by `subjectType`. -/
inductive QuizOptions
  | text (o : TextQuizOptions)
  | math (o : MathQuizOptions)
  deriving DecidableEq, Repr

/-! ## JavaScript string primitives -/

/-- The JS whitespace class (`\s`, `String.prototype.trim`), restricted to the
members reachable in this code base. -/
def isJsWs (c : Char) : Bool :=
  c = ' ' || c = '\t' || c = '\n' || c = '\r' || c = '\x0b' || c = '\x0c' || c = ' '

/-- ASCII lower-casing, modelling `String.prototype.toLowerCase`. -/
def lowerChar (c : Char) : Char :=
  if 'A' ≤ c ∧ c ≤ 'Z' then Char.ofNat (c.toNat + 32) else c

/-- ASCII upper-casing. -/
def upperChar (c : Char) : Char :=
  if 'a' ≤ c ∧ c ≤ 'z' then Char.ofNat (c.toNat - 32) else c

def jsLowerL (cs : List Char) : List Char := cs.map lowerChar

def jsLower (s : String) : String := ⟨jsLowerL s.data⟩

/-- `trim` on character lists: drop JS whitespace from both ends. -/
def trimL (cs : List Char) : List Char :=
  ((cs.dropWhile isJsWs).reverse.dropWhile isJsWs).reverse

/-- `String.prototype.trim`. -/
def jsTrim (s : String) : String := ⟨trimL s.data⟩

/-- `needle` is a leading segment of `hay`. -/
def leadsL : List Char → List Char → Bool
  | [], _ => true
  | _ :: _, [] => false
  | n :: ns, h :: hs => n = h && leadsL ns hs

/-- Case-insensitive (ASCII) variant of `leadsL`. -/
def leadsCI : List Char → List Char → Bool
  | [], _ => true
  | _ :: _, [] => false
  | n :: ns, h :: hs => lowerChar n = lowerChar h && leadsCI ns hs

/-- `hay.includes(needle)` on character lists. -/
def hasSubL (needle : List Char) : List Char → Bool
  | [] => needle.isEmpty
  | h :: hs => leadsL needle (h :: hs) || hasSubL needle hs

/-- `String.prototype.includes`. -/
def hasSub (hay needle : String) : Bool := hasSubL needle.data hay.data

/-- `String.prototype.replace` with a single-character pattern: replaces the
first occurrence of `c` by `r`. -/
def replFirst (c r : Char) : List Char → List Char
  | [] => []
  | x :: xs => if x = c then r :: xs else x :: replFirst c r xs

def isDigitCh (c : Char) : Bool := '0' ≤ c && c ≤ '9'

def isAsciiLetter (c : Char) : Bool := ('A' ≤ c && c ≤ 'Z') || ('a' ≤ c && c ≤ 'z')

/-- Split a character list at every occurrence of a separator character
(JS `String.prototype.split` with a one-character separator). -/
def splitOnChar (sep : Char) : List Char → List (List Char)
  | [] => [[]]
  | c :: rest =>
    match splitOnChar sep rest with
    | [] => [[]]
    | piece :: pieces => if c = sep then [] :: piece :: pieces else (c :: piece) :: pieces

/-! ## JSON values and `JSON.parse` -/

/-- A JSON number: `isInt` is set when the literal denotes exactly the integer
`ival`; otherwise `txt` keeps the source literal (used by `String()` coercion). -/
structure JNum where
  isInt : Bool
  ival : Int
  txt : String
  deriving DecidableEq, Repr

inductive Json
  | null
  | bool (b : Bool)
  | num (n : JNum)
  | str (s : String)
  | arr (xs : List Json)
  | obj (kvs : List (String × Json))

/-- First value bound to key `k` (objects are de-duplicated at parse time). -/
def jLookup (kvs : List (String × Json)) (k : String) : Option Json :=
  match kvs.find? (fun kv => kv.1 = k) with
  | some kv => some kv.2
  | none => none

/-- JS property access that distinguishes a missing key (`none`, i.e. `undefined`)
from an explicit JSON `null`. -/
def jGet (v : Json) (k : String) : Option Json :=
  match v with
  | .obj kvs => jLookup kvs k
  | _ => none

/-- The nullish-coalescing operator `a ?? b`: `b` when `a` is absent or `null`. -/
def jjOr (a b : Option Json) : Option Json :=
  match a with
  | some .null => b
  | some v => some v
  | none => b

/-- `isRecord` from App.tsx: a non-null, non-array object. -/
def isRecordJ (v : Json) : Bool :=
  match v with
  | .obj _ => true
  | _ => false

/-- JSON whitespace (per the JSON grammar, which `JSON.parse` follows). -/
def isJsonWs (c : Char) : Bool := c = ' ' || c = '\t' || c = '\n' || c = '\r'

def skipJWs (cs : List Char) : List Char := cs.dropWhile isJsonWs

/-- Value of one hexadecimal digit (0-9, a-f, A-F), by code point. -/
def hexVal (c : Char) : Option Nat :=
  let n := c.toNat
  if 48 ≤ n ∧ n ≤ 57 then some (n - 48)
  else if 97 ≤ n ∧ n ≤ 102 then some (n - 87)
  else if 65 ≤ n ∧ n ≤ 70 then some (n - 55)
  else none

/-- Numeric value of a list of decimal digits. -/
def digitsToNat (ds : List Char) : Nat :=
  ds.foldl (fun acc c => 10 * acc + (c.toNat - 48)) 0

def parseHex4 : List Char → Option (Nat × List Char)
  | a :: b :: c :: d :: rest =>
    match hexVal a, hexVal b, hexVal c, hexVal d with
    | some x, some y, some z, some w => some (((x * 16 + y) * 16 + z) * 16 + w, rest)
    | _, _, _, _ => none
  | _ => none

/-- Body of a JSON string literal (after the opening quote). -/
def parseStrBody : Nat → List Char → List Char → Option (String × List Char)
  | 0, _, _ => none
  | _ + 1, [], _ => none
  | fuel + 1, c :: rest, acc =>
    if c = '"' then some (⟨acc.reverse⟩, rest)
    else if c = '\\' then
      match rest with
      | [] => none
      | e :: rest2 =>
        if e = '"' then parseStrBody fuel rest2 ('"' :: acc)
        else if e = '\\' then parseStrBody fuel rest2 ('\\' :: acc)
        else if e = '/' then parseStrBody fuel rest2 ('/' :: acc)
        else if e = 'b' then parseStrBody fuel rest2 ('\x08' :: acc)
        else if e = 'f' then parseStrBody fuel rest2 ('\x0c' :: acc)
        else if e = 'n' then parseStrBody fuel rest2 ('\n' :: acc)
        else if e = 'r' then parseStrBody fuel rest2 ('\r' :: acc)
        else if e = 't' then parseStrBody fuel rest2 ('\t' :: acc)
        else if e = 'u' then
          match parseHex4 rest2 with
          | some (n, rest3) =>
            let ch := if 0xd800 ≤ n ∧ n < 0xe000 then '�' else Char.ofNat n
            parseStrBody fuel rest3 (ch :: acc)
          | none => none
        else none
    else if c.toNat < 0x20 then none
    else parseStrBody fuel rest (c :: acc)

/-- A JSON number literal, computed exactly. -/
def parseNum (cs : List Char) : Option (JNum × List Char) :=
  let (sgn, cs1, sgnChars) :=
    match cs with
    | '-' :: rest => ((-1 : Int), rest, ['-'])
    | _ => ((1 : Int), cs, [])
  let intDigits := cs1.takeWhile isDigitCh
  let cs2 := cs1.dropWhile isDigitCh
  if intDigits = [] then none
  else if intDigits.length > 1 ∧ intDigits.headD '0' = '0' then none
  else
    let (fracDigits, cs3, fracChars) :=
      match cs2 with
      | '.' :: rest =>
        let fd := rest.takeWhile isDigitCh
        (fd, rest.dropWhile isDigitCh, '.' :: fd)
      | _ => ([], cs2, [])
    if cs2 ≠ cs3 ∧ fracDigits = [] then none
    else
      let (expVal, cs4, expChars) :=
        match cs3 with
        | e :: rest =>
          if e = 'e' ∨ e = 'E' then
            let (esgn, rest1, esChars) :=
              match rest with
              | '+' :: r => ((1 : Int), r, ['+'])
              | '-' :: r => ((-1 : Int), r, ['-'])
              | _ => ((1 : Int), rest, [])
            let ed := rest1.takeWhile isDigitCh
            if ed = [] then ((0 : Int), cs3, ([] : List Char))
            else (esgn * (Int.ofNat (digitsToNat ed)), rest1.dropWhile isDigitCh,
                  e :: (esChars ++ ed))
          else ((0 : Int), cs3, [])
        | [] => ((0 : Int), cs3, [])
      if cs3 ≠ cs4 ∧ expChars = [] then none
      else
        let mantissa : Nat := digitsToNat (intDigits ++ fracDigits)
        let scale : Int := expVal - Int.ofNat fracDigits.length
        let txt : String := ⟨sgnChars ++ intDigits ++ fracChars ++ expChars⟩
        if scale ≥ 0 then
          some (⟨true, sgn * Int.ofNat (mantissa * 10 ^ scale.toNat), txt⟩, cs4)
        else
          let d : Nat := 10 ^ (-scale).toNat
          if mantissa % d = 0 then
            some (⟨true, sgn * Int.ofNat (mantissa / d), txt⟩, cs4)
          else
            some (⟨false, 0, txt⟩, cs4)

/-- De-duplicate object keys: first-occurrence position, last value (JS object
literal semantics used by `JSON.parse`). -/
def dedupKVs (kvs : List (String × Json)) : List (String × Json) :=
  kvs.foldl
    (fun acc kv =>
      if acc.any (fun p => p.1 = kv.1) then
        acc.map (fun p => if p.1 = kv.1 then (p.1, kv.2) else p)
      else acc ++ [kv])
    []

mutual

/-- One JSON value, with surrounding whitespace skipped on the left. -/
def parseValue : Nat → List Char → Option (Json × List Char)
  | 0, _ => none
  | fuel + 1, cs =>
    match skipJWs cs with
    | [] => none
    | c :: rest =>
      if c = 'n' then
        if leadsL ['u', 'l', 'l'] rest then some (.null, rest.drop 3) else none
      else if c = 't' then
        if leadsL ['r', 'u', 'e'] rest then some (.bool true, rest.drop 3) else none
      else if c = 'f' then
        if leadsL ['a', 'l', 's', 'e'] rest then some (.bool false, rest.drop 4) else none
      else if c = '"' then
        match parseStrBody (rest.length + 1) rest [] with
        | some (s, rest2) => some (.str s, rest2)
        | none => none
      else if c = '[' then
        match skipJWs rest with
        | ']' :: rest2 => some (.arr [], rest2)
        | other => parseArrItems fuel other []
      else if c = '\x7b' then
        match skipJWs rest with
        | '\x7d' :: rest2 => some (.obj [], rest2)
        | other => parseObjItems fuel other []
      else
        match parseNum (c :: rest) with
        | some (n, rest2) => some (.num n, rest2)
        | none => none

/-- Comma-separated array elements up to `]`. -/
def parseArrItems : Nat → List Char → List Json → Option (Json × List Char)
  | 0, _, _ => none
  | fuel + 1, cs, acc =>
    match parseValue fuel cs with
    | none => none
    | some (v, rest) =>
      match skipJWs rest with
      | ',' :: rest2 => parseArrItems fuel rest2 (v :: acc)
      | ']' :: rest2 => some (.arr (v :: acc).reverse, rest2)
      | _ => none

/-- Comma-separated `"key": value` members up to the closing brace. -/
def parseObjItems : Nat → List Char → List (String × Json) → Option (Json × List Char)
  | 0, _, _ => none
  | fuel + 1, cs, acc =>
    match skipJWs cs with
    | '"' :: rest =>
      match parseStrBody (rest.length + 1) rest [] with
      | none => none
      | some (k, rest2) =>
        match skipJWs rest2 with
        | ':' :: rest3 =>
          match parseValue fuel rest3 with
          | none => none
          | some (v, rest4) =>
            match skipJWs rest4 with
            | ',' :: rest5 => parseObjItems fuel rest5 ((k, v) :: acc)
            | '\x7d' :: rest5 => some (.obj (dedupKVs ((k, v) :: acc).reverse), rest5)
            | _ => none
        | _ => none
    | _ => none

end

/-- `JSON.parse`, returning `none` where the JS built-in throws. -/
def jsonParse (s : String) : Option Json :=
  match parseValue (s.data.length + 1) s.data with
  | some (v, rest) => if skipJWs rest = [] then some v else none
  | none => none

/-! ## `String()` coercion (used by `normalizeOptions`) -/

mutual

/-- `Array.prototype.join ","`: elements converted with `String()`, except that
`null` contributes the empty string. -/
def jsArrJoin : List Json → String
  | [] => ""
  | [x] => jsElemStr x
  | x :: y :: rest => jsElemStr x ++ "," ++ jsArrJoin (y :: rest)

/-- `String()` of a value appearing as an array element (`null` joins as `""`). -/
def jsElemStr : Json → String
  | .null => ""
  | .bool true => "true"
  | .bool false => "false"
  | .num n => if n.isInt then toString n.ival else n.txt
  | .str s => s
  | .arr xs => jsArrJoin xs
  | .obj _ => "[object Object]"

end

/-- The JS `String()` coercion. -/
def jsToString : Json → String
  | .null => "null"
  | v => jsElemStr v

/-! ## Quiz-type normalization (App.tsx lines 194-243) -/

/-- Enumeration strings of `QuizType` in `src/types.ts` (the variant shipped
with this App component). -/
def quizTypeEnumStr : QuizType → String
  | .MultipleChoice => "MultipleChoice"
  | .TrueFalse => "TrueFalse"
  | .Open => "Open"

/-- `(opts as any).quizType || (opts as any).questionType || (opts as any).type
|| "mcq"`: the Text variant carries `quizType`; the Math variant has none of the
three fields, so the literal `"mcq"` is used. -/
def rawQuizTypeStr : QuizOptions → String
  | .text o => quizTypeEnumStr o.quizType
  | .math _ => "mcq"

/-- The string normalization inside `mapQuizType` (App.tsx lines 197-201). -/
def mapQuizTypeNorm (raw : String) : String :=
  let normalized : String := ⟨replFirst ' ' '_' (replFirst '-' '_' (jsLower raw).data)⟩
  if hasSub normalized "true" || hasSub normalized "false" then "true_false"
  else if hasSub normalized "open" then "open"
  else "mcq"

/-- `mapQuizType` (App.tsx lines 194-202). -/
def mapQuizType (opts : QuizOptions) : String := mapQuizTypeNorm (rawQuizTypeStr opts)

/-- `getRequestedQuizType` (App.tsx lines 212-218). -/
def getRequestedQuizType : QuizOptions → QuizType
  | .text o => o.quizType
  | .math _ => .Open

/-- `normalizeQuizType` (App.tsx lines 220-243); non-string input takes the
fallback. -/
def normalizeQuizType (input : Option Json) (fallbackType : QuizType) : QuizType :=
  match input with
  | some (.str s) =>
    let normalized := jsLower s
    if hasSub normalized "true" || hasSub normalized "false" then .TrueFalse
    else if hasSub normalized "open" || hasSub normalized "short" then .Open
    else if fallbackType = .TrueFalse then .TrueFalse
    else if fallbackType = .Open then .Open
    else .MultipleChoice
  | _ => fallbackType

/-! ## JSON extraction from the completion (App.tsx lines 245-257) -/

def fenceChars : List Char := ['`', '`', '`']

/-- Split at the first occurrence of a triple-backtick fence: returns the text
before the fence and the text after it. -/
def splitFence : List Char → Option (List Char × List Char)
  | [] => none
  | c :: rest =>
    if leadsL fenceChars (c :: rest) then some ([], (c :: rest).drop 3)
    else
      match splitFence rest with
      | some (before, after) => some (c :: before, after)
      | none => none

/-- The unfenced branch: `raw.trim().match(/^[\[{].*[\]}]$/s)` returns the
trimmed text when it starts with `[` or `{` and ends with `]` or `}`. -/
def unwrappedJsonCheck (raw : String) : Option String :=
  let t := trimL raw.data
  match t with
  | [] => none
  | c :: rest =>
    let lastOk : Bool :=
      match rest.getLast? with
      | some d => d = ']' || d = '\x7d'
      | none => false
    if (c = '[' || c = '\x7b') && lastOk then some ⟨t⟩ else none

/-- `extractJsonFromContent` (App.tsx lines 245-257).  The fenced-block regex
`/```(?:json)?\s*([\s\S]*?)```/i` matches at the first fence when a closing
fence follows; its capture runs from after the optional tag and whitespace up to
the next fence. -/
def extractJsonFromContent (raw : String) : Option String :=
  match splitFence raw.data with
  | some (_, afterOpen) =>
    let afterTag := if leadsCI ['j', 's', 'o', 'n'] afterOpen then afterOpen.drop 4 else afterOpen
    let capStart := afterTag.dropWhile isJsWs
    (match splitFence capStart with
     | some (cap, _) => some ⟨trimL cap⟩
     | none => unwrappedJsonCheck raw)
  | none => unwrappedJsonCheck raw

/-! ## Answer/options normalization (App.tsx lines 259-335) -/

/-- The trailing fallback of `normalizeAnswer` (also exactly the body of its
empty-string branch): first option when there is at least one, else the Open
placeholder, else the empty string. -/
def answerFallback (ty : QuizType) (options : Option (List String)) : String :=
  match options with
  | some (o :: _) => o
  | _ => if ty = QuizType.Open then "Answers may vary." else ""

/-- `normalizeAnswer` (App.tsx lines 259-323) on a present raw value. -/
def normalizeAnswerJ : Json → QuizType → Option (List String) → String
  | .arr (x :: _), ty, options => normalizeAnswerJ x ty options
  | .num n, ty, options =>
    -- `options && options[rawAnswer]`: a whole-number in-range index whose
    -- element is non-empty (absent options give the empty list, failing the
    -- bounds test exactly as `undefined` fails the JS guard).
    if n.isInt ∧ 0 ≤ n.ival ∧ n.ival.toNat < (options.getD []).length ∧
        (options.getD []).getD n.ival.toNat "" ≠ "" then
      (options.getD []).getD n.ival.toNat ""
    else answerFallback ty options
  | .str s, ty, options =>
    let trimmed := jsTrim s
    if trimmed = "" then answerFallback ty options
    else
      let letterHit : Option String :=
        match ty, options with
        | .MultipleChoice, some l =>
          if trimmed.length = 1 ∧ isAsciiLetter (trimmed.data.headD ' ') then
            let idx := (upperChar (trimmed.data.headD ' ')).toNat - 'A'.toNat
            if l.getD idx "" ≠ "" then some (l.getD idx "") else none
          else none
        | _, _ => none
      (match letterHit with
       | some v => v
       | none =>
         if ty = QuizType.TrueFalse then
           if leadsL ['t'] (jsLower trimmed).data then "True"
           else if leadsL ['f'] (jsLower trimmed).data then "False"
           else trimmed
         else trimmed)
  | .obj kvs, ty, options =>
    (match jLookup kvs "text" with
     | some (.str t) => jsTrim t
     | _ => answerFallback ty options)
  | _, ty, options => answerFallback ty options

/-- `normalizeAnswer` with the `undefined` case (missing raw answer). -/
def normalizeAnswer (rawAnswer : Option Json) (ty : QuizType)
    (options : Option (List String)) : String :=
  match rawAnswer with
  | some v => normalizeAnswerJ v ty options
  | none => answerFallback ty options

/-- `normalizeOptions` (App.tsx lines 325-335). -/
def normalizeOptions (rawOptions : Option Json) : List String :=
  match rawOptions with
  | some (.arr xs) => (xs.map (fun o => jsTrim (jsToString o))).filter (fun s => s ≠ "")
  | some (.obj kvs) => (kvs.map (fun kv => jsTrim (jsToString kv.2))).filter (fun s => s ≠ "")
  | _ => []

/-! ## Per-question mapping (App.tsx lines 337-388) -/

/-- Question-text field aliases, each used only when present with string type. -/
def resolvePrompt (kvs : List (String × Json)) : String :=
  match jLookup kvs "question" with
  | some (.str s) => s
  | _ =>
    match jLookup kvs "prompt" with
    | some (.str s) => s
    | _ =>
      match jLookup kvs "stem" with
      | some (.str s) => s
      | _ =>
        match jLookup kvs "text" with
        | some (.str s) => s
        | _ => ""

/-- `rawQuestion.type ?? rawQuestion.questionType ?? rawQuestion.format`. -/
def resolveTypeRaw (kvs : List (String × Json)) : Option Json :=
  jjOr (jLookup kvs "type") (jjOr (jLookup kvs "questionType") (jLookup kvs "format"))

/-- `rawQuestion.options ?? rawQuestion.choices ?? rawQuestion.answers ??
rawQuestion.optionsList`. -/
def resolveOptsRaw (kvs : List (String × Json)) : Option Json :=
  jjOr (jLookup kvs "options")
    (jjOr (jLookup kvs "choices") (jjOr (jLookup kvs "answers") (jLookup kvs "optionsList")))

/-- `rawQuestion.answer ?? rawQuestion.correctAnswer ?? rawQuestion.correct ??
rawQuestion.solution ?? rawQuestion.key`. -/
def resolveAnswerRaw (kvs : List (String × Json)) : Option Json :=
  jjOr (jLookup kvs "answer")
    (jjOr (jLookup kvs "correctAnswer")
      (jjOr (jLookup kvs "correct") (jjOr (jLookup kvs "solution") (jLookup kvs "key"))))

/-- Explanation aliases, trimmed when a string, else `""`. -/
def resolveExplanation (kvs : List (String × Json)) : String :=
  match jjOr (jLookup kvs "explanation")
      (jjOr (jLookup kvs "rationale") (jjOr (jLookup kvs "reason") (jLookup kvs "feedback"))) with
  | some (.str s) => jsTrim s
  | _ => ""

/-- Body of `mapJsonQuestionToQuestion` for the record case. -/
def mapJsonQuestionKVs (kvs : List (String × Json)) (fallbackType : QuizType) : Option Question :=
  let questionText := jsTrim (resolvePrompt kvs)
  if questionText = "" then none
  else
    let ty := normalizeQuizType (resolveTypeRaw kvs) fallbackType
    let options : Option (List String) :=
      if ty = QuizType.MultipleChoice then some (normalizeOptions (resolveOptsRaw kvs))
      else none
    let answer := normalizeAnswer (resolveAnswerRaw kvs) ty options
    let explanation := resolveExplanation kvs
    if ty = QuizType.MultipleChoice ∧ (options.getD []).isEmpty then none
    else if ty = QuizType.TrueFalse ∧ (answer = "" ∨ (answer ≠ "True" ∧ answer ≠ "False")) then
      some ⟨questionText, some ["True", "False"], "True",
        (if explanation = "" then "No explanation provided." else explanation), .TrueFalse⟩
    else
      some ⟨questionText, options,
        (if answer = "" then (if ty = QuizType.Open then "Answers may vary." else "") else answer),
        (if explanation = "" then "No explanation provided." else explanation), ty⟩

/-- `mapJsonQuestionToQuestion` (App.tsx lines 337-388): `isRecord` gate, then
the record body. -/
def mapJsonQuestionToQuestion (rawQuestion : Json) (fallbackType : QuizType) : Option Question :=
  match rawQuestion with
  | .obj kvs => mapJsonQuestionKVs kvs fallbackType
  | _ => none

/-! ## Payload shape resolution and `tryParseJsonQuiz` (App.tsx lines 390-449) -/

/-- The payload-shape resolution of `tryParseJsonQuiz` (App.tsx lines 399-431):
returns the title and the raw question list. -/
def resolveQuizShape (parsed : Json) : String × List Json :=
  match parsed with
  | .obj kvs =>
    let candidate : List (String × Json) :=
      match jLookup kvs "quiz" with
      | some (.obj q) => q
      | _ => kvs
    let title : String :=
      match jLookup candidate "title" with
      | some (.str t) => if jsTrim t = "" then "Generated Quiz" else jsTrim t
      | _ => "Generated Quiz"
    let rq0 : List Json :=
      match jLookup candidate "questions" with
      | some (.arr a) => a
      | _ =>
        match jLookup candidate "items" with
        | some (.arr a) => a
        | _ => []
    let rq : List Json :=
      match jLookup kvs "quiz" with
      | some (.arr a) => a
      | _ =>
        match jLookup kvs "data" with
        | some (.obj d) =>
          (match jLookup d "quiz" with
           | some (.obj dq) =>
             (match jLookup dq "questions" with
              | some (.arr a) => a
              | _ =>
                match jLookup d "questions" with
                | some (.arr a) => a
                | _ => rq0)
           | _ =>
             match jLookup d "questions" with
             | some (.arr a) => a
             | _ => rq0)
        | some (.arr a) => a
        | _ => rq0
    (title, rq)
  | .arr xs => ("Generated Quiz", xs)
  | _ => ("Generated Quiz", [])

/-- `tryParseJsonQuiz` (App.tsx lines 390-449). -/
def tryParseJsonQuiz (raw : String) (options : QuizOptions) : Option Quiz :=
  let fallbackType := getRequestedQuizType options
  match extractJsonFromContent raw with
  | none => none
  | some jsonString =>
    match jsonParse jsonString with
    | none => none
    | some parsed =>
      let shape := resolveQuizShape parsed
      let questions := shape.2.filterMap (fun item => mapJsonQuestionToQuestion item fallbackType)
      if questions.isEmpty then none else some ⟨shape.1, questions⟩

/-! ## Fallback text-block parsing (App.tsx lines 451-530) -/

/-- Index of the last newline in a character list, if any. -/
def lastNlPos : List Char → Option Nat
  | [] => none
  | c :: rest =>
    match lastNlPos rest with
    | some k => some (k + 1)
    | none => if c = '\n' then some 0 else none

/-- Worker for `raw.split(/\n\s*\n/)`: a separator is a newline followed
(through whitespace) by a later newline in the same whitespace run; the
separator ends at the last newline of that run. -/
def splitBlocksGo : Nat → List Char → List Char → List (List Char)
  | 0, rest, acc => [acc.reverse ++ rest]
  | _ + 1, [], acc => [acc.reverse]
  | fuel + 1, c :: rest, acc =>
    if c = '\n' then
      match lastNlPos (rest.takeWhile isJsWs) with
      | some k => acc.reverse :: splitBlocksGo fuel (rest.drop (k + 1)) []
      | none => splitBlocksGo fuel rest (c :: acc)
    else splitBlocksGo fuel rest (c :: acc)

/-- `raw.split(/\n\s*\n/)` on character lists. -/
def splitBlocks (cs : List Char) : List (List Char) := splitBlocksGo (cs.length + 1) cs []

/-- Strip `/^(?:Q\s*\d+[:.)-]|\d+[:.)-])\s*/i` from the start of a line. -/
def stripQMarker (cs : List Char) : List Char :=
  let tryDigits : List Char → Option (List Char) := fun l =>
    let ds := l.takeWhile isDigitCh
    match l.dropWhile isDigitCh with
    | s :: rest =>
      if ds ≠ [] ∧ (s = ':' ∨ s = '.' ∨ s = ')' ∨ s = '-') then some rest else none
    | [] => none
  match cs with
  | c :: rest =>
    if c = 'Q' ∨ c = 'q' then
      match tryDigits (rest.dropWhile isJsWs) with
      | some r => r.dropWhile isJsWs
      | none =>
        (match tryDigits cs with
         | some r => r.dropWhile isJsWs
         | none => cs)
    else
      (match tryDigits cs with
       | some r => r.dropWhile isJsWs
       | none => cs)
  | [] => []

/-- `/^(?:[A-Z]|\d+)[.)-]\s*(.+)$/` on a (pre-trimmed) line: capture group 1. -/
def matchOptionLine (cs : List Char) : Option (List Char) :=
  let afterHead : Option (List Char) :=
    match cs with
    | c :: rest =>
      if 'A' ≤ c ∧ c ≤ 'Z' then some rest
      else if isDigitCh c then some (cs.dropWhile isDigitCh)
      else none
    | [] => none
  match afterHead with
  | some (s :: rest2) =>
    if s = '.' ∨ s = ')' ∨ s = '-' then
      (let r := rest2.dropWhile isJsWs
       if r = [] then none else some r)
    else none
  | _ => none

/-- `/^Word[:.)-]\s*(.+)$/i` for a fixed keyword: capture group. -/
def matchKeyedLine (keyword : List Char) (cs : List Char) : Option (List Char) :=
  if leadsCI keyword cs then
    match cs.drop keyword.length with
    | s :: rest =>
      if s = ':' ∨ s = '.' ∨ s = ')' ∨ s = '-' then
        (let r := rest.dropWhile isJsWs
         if r = [] then none else some r)
      else none
    | [] => none
  else none

/-- `/^(?:Correct\s+)?Answer[:.)-]\s*(.+)$/i`. -/
def matchAnswerLine (cs : List Char) : Option (List Char) :=
  (if leadsCI ['c', 'o', 'r', 'r', 'e', 'c', 't'] cs then
    (let rest := cs.drop 7
     let rest2 := rest.dropWhile isJsWs
     if rest2.length < rest.length then matchKeyedLine ['a', 'n', 's', 'w', 'e', 'r'] rest2
     else none)
  else none) <|> matchKeyedLine ['a', 'n', 's', 'w', 'e', 'r'] cs

/-- `/^(?:Explanation|Rationale)[:.)-]\s*(.+)$/i`. -/
def matchExplLine (cs : List Char) : Option (List Char) :=
  matchKeyedLine ['e', 'x', 'p', 'l', 'a', 'n', 'a', 't', 'i', 'o', 'n'] cs <|>
    matchKeyedLine ['r', 'a', 't', 'i', 'o', 'n', 'a', 'l', 'e'] cs

/-- Accumulator of the per-block line scan (App.tsx lines 476-492). -/
structure BlockScan where
  answer : String
  explanation : String
  optionsList : List String
  deriving DecidableEq, Repr

/-- The `for (const line of lines.slice(1))` scan: options accumulate, answer
and explanation keep the last match, option lines take priority. -/
def scanBlockLines (lines : List (List Char)) : BlockScan :=
  lines.foldl
    (fun st line =>
      match matchOptionLine line with
      | some o => { st with optionsList := st.optionsList ++ [jsTrim ⟨o⟩] }
      | none =>
        match matchAnswerLine line with
        | some a => { st with answer := jsTrim ⟨a⟩ }
        | none =>
          match matchExplLine line with
          | some e => { st with explanation := jsTrim ⟨e⟩ }
          | none => st)
    ⟨"", "", []⟩

/-- One block of the fallback parser (App.tsx lines 465-520): `none` when the
block is skipped. -/
def parseBlock (block : List Char) (fallbackType : QuizType) : Option Question :=
  let lines := ((splitOnChar '\n' block).map trimL).filter (fun l => l ≠ [])
  match lines with
  | [] => none
  | l0 :: restLines =>
    let firstLine := trimL (stripQMarker l0)
    if firstLine = [] then none
    else
      let st := scanBlockLines restLines
      let answer1 : String :=
        if fallbackType = QuizType.TrueFalse then
          normalizeAnswer (some (.str st.answer)) .TrueFalse none
        else if fallbackType = QuizType.MultipleChoice then
          normalizeAnswer (some (.str st.answer)) .MultipleChoice (some st.optionsList)
        else if st.answer = "" then "Answers may vary."
        else st.answer
      let optionsList1 : List String :=
        if fallbackType = QuizType.TrueFalse ∧ st.optionsList = [] then ["True", "False"]
        else st.optionsList
      let qa : QuizType × String :=
        if fallbackType = QuizType.MultipleChoice ∧ optionsList1 = [] then
          (.Open, if answer1 = "" then "Answers may vary." else answer1)
        else (fallbackType, answer1)
      some ⟨⟨firstLine⟩,
        (if qa.1 = QuizType.MultipleChoice then some optionsList1 else none),
        qa.2,
        (if st.explanation = "" then "No explanation provided." else st.explanation),
        qa.1⟩

/-- `fallbackParseToQuiz` (App.tsx lines 451-530); `Except.error` models the
thrown `Error`. -/
def fallbackParseToQuiz (raw : String) (options : QuizOptions) : Except String Quiz :=
  match tryParseJsonQuiz raw options with
  | some jsonQuiz => .ok jsonQuiz
  | none =>
    let fallbackType := getRequestedQuizType options
    let blocks := ((splitBlocks raw.data).map trimL).filter (fun b => b ≠ [])
    let questions := blocks.filterMap (fun b => parseBlock b fallbackType)
    if questions.isEmpty then .error "Unable to parse quiz content into questions."
    else .ok ⟨"Generated Quiz", questions⟩

/-! ## Scoring engine (src/unnamed/part_001, QuizResults component) -/

/-- `correctAnswerClean.substring(1, correctAnswerClean.length - 1)` for a
string that starts and ends with `$`: on a one-character string JS `substring`
swaps its arguments and returns the string unchanged. -/
def stripEnclosing (cs : List Char) : List Char :=
  if cs.length ≤ 1 then cs else (cs.drop 1).dropLast

/-- `isAnswerCorrect` (part_001 lines 25-42): `undefined` user answer is
incorrect; both sides are trimmed; for Math the canonical answer loses one pair
of enclosing `$` delimiters (and is re-trimmed); comparison is case-insensitive. -/
def isAnswerCorrect (userAnswer : Option String) (correctAnswer : String)
    (subjectType : SubjectType) : Bool :=
  match userAnswer with
  | none => false
  | some u =>
    let userAnswerClean := jsTrim u
    let cc0 := jsTrim correctAnswer
    let correctAnswerClean :=
      if subjectType = SubjectType.Math then
        if leadsL ['$'] cc0.data ∧ cc0.data.getLast? = some '$' then
          jsTrim ⟨stripEnclosing cc0.data⟩
        else cc0
      else cc0
    jsLower userAnswerClean = jsLower correctAnswerClean

/-- `Math.round` on an exact rational (JS computes in binary floating point;
this model uses exact arithmetic). -/
def jsRound (q : ℚ) : ℤ := ⌊q + 1 / 2⌋

/-- The `quiz.questions.forEach` counting loop of the score memo, carrying the
running question index. -/
def countCorrectFrom (qs : List Question) (i : ℕ) (ua : ℕ → Option String)
    (st : SubjectType) : ℕ :=
  match qs with
  | [] => 0
  | q :: rest =>
    (if isAnswerCorrect (ua i) q.answer st then 1 else 0) + countCorrectFrom rest (i + 1) ua st

/-- The score memo (part_001 lines 57-66): `(score, correctAnswers)` where
`score = Math.round(correct / total * 100)` and `0` for an empty quiz. -/
def computeScore (quiz : Quiz) (ua : ℕ → Option String) (st : SubjectType) : ℤ × ℕ :=
  let correct := countCorrectFrom quiz.questions 0 ua st
  let n := quiz.questions.length
  (if 0 < n then jsRound ((correct : ℚ) / (n : ℚ) * 100) else 0, correct)

/-! ## Text extraction service (src/services/textExtractionService.ts) -/

/-- A PDF as seen through pdf.js: a page count and the text content of each
page (`getPage`/`getTextContent` are the opaque external engine). -/
structure PdfDoc where
  numPages : ℕ
  pages : List String
  deriving DecidableEq, Repr

/-- An uploaded file after media-type categorization (`mapFileToCategory`);
image and DOCX extraction engines are opaque text-producing services, so those
files carry the text their engine yields. -/
inductive UFile
  | image (text : String)
  | pdf (d : PdfDoc)
  | docx (text : String)
  deriving DecidableEq, Repr

def isPdfFile : UFile → Bool
  | .pdf _ => true
  | _ => false

/-- Text of page `i` (1-based, as pdf.js numbers pages). -/
def pageTextOf (d : PdfDoc) (i : ℕ) : String := d.pages.getD (i - 1) ""

/-- `extractTextFromPdf` (textExtractionService.ts lines 79-109), instrumented
with the list of page numbers passed to `getPage`: the page-limit check throws
before the extraction loop, so no page is read when the count exceeds it. -/
def extractTextFromPdfT (d : PdfDoc) (pageLimit : ℕ := 15) :
    Except String String × List ℕ :=
  if d.numPages > pageLimit then
    (.error ("PDF exceeds the " ++ toString pageLimit ++ "-page limit."), [])
  else
    let totalPages := min d.numPages pageLimit
    let idxs := List.range' 1 totalPages
    let extractedPages := (idxs.map (fun i => jsTrim (pageTextOf d i))).filter (fun s => s ≠ "")
    (.ok (jsTrim (String.intercalate "\n\n" extractedPages)), idxs)

/-- `extractTextFromUploads` (textExtractionService.ts lines 136-170), with the
PDF page trace: files in order, empty chunks dropped, chunks joined by a blank
line; a PDF failure aborts the batch. -/
def extractTextFromUploads (files : List UFile) : Except String String × List ℕ :=
  let step :
      Except String (List String) × List ℕ → UFile → Except String (List String) × List ℕ :=
    fun acc file =>
      match acc with
      | (.error e, tr) => (.error e, tr)
      | (.ok chunks, tr) =>
        match file with
        -- the image and DOCX services trim their engine's text before
        -- returning it, so the truthiness test sees the trimmed text
        | .image t => (.ok (chunks ++ (if jsTrim t ≠ "" then [jsTrim t] else [])), tr)
        | .docx t => (.ok (chunks ++ (if jsTrim t ≠ "" then [jsTrim t] else [])), tr)
        | .pdf d =>
          match extractTextFromPdfT d with
          | (.ok t, tr2) => (.ok (chunks ++ (if t ≠ "" then [jsTrim t] else [])), tr ++ tr2)
          | (.error e, tr2) => (.error e, tr ++ tr2)
  match files.foldl step (.ok [], []) with
  | (.ok chunks, tr) => (.ok (jsTrim (String.intercalate "\n\n" chunks)), tr)
  | (.error e, tr) => (.error e, tr)

/-! ## Upload gate and app state machine (FileUpload.tsx, App.tsx) -/

inductive Step
  | upload | options | quiz | results | loading
  deriving DecidableEq, Repr

/-- The slice of the App component state the claims are about.  `error` merges
the App-level error and the FileUpload validation error (they are both shown to
the user; the distinction does not matter to the properties proved below). -/
structure AppState where
  step : Step
  error : Option String
  extractedText : Option String
  quiz : Option Quiz
  userAnswers : ℕ → Option String
  currentQuizOptions : Option QuizOptions

/-- `getPdfPageCount` (FileUpload.tsx lines 156-163), with pdf.js available. -/
def getPdfPageCount (d : PdfDoc) : ℕ := d.numPages

inductive SubmitOutcome
  | idle
  | rejected (err : String)
  | proceeded
  deriving DecidableEq, Repr

/-- `handleSubmit` (FileUpload.tsx lines 165-178): with a selected PDF whose
page count exceeds 15 the submission stops with the page-limit error and
`onFileProcessed` is never invoked. -/
def handleSubmit (files : List UFile) : SubmitOutcome :=
  if files.isEmpty then .idle
  else
    match files.find? isPdfFile with
    | some (.pdf d) => if getPdfPageCount d > 15 then .rejected "errors.pdfPageLimit" else .proceeded
    | _ => .proceeded

/-- `handleFileProcessed` (App.tsx lines 594-627): on success the extracted
text is stored and the flow moves to `options`; on failure the error is shown,
the flow returns to `upload`, and `extractedText` is left as it was. -/
def handleFileProcessed (st : AppState) (files : List UFile) : AppState × List ℕ :=
  let st0 := { st with step := Step.loading, error := none }
  match extractTextFromUploads files with
  | (.ok t, tr) => ({ st0 with extractedText := some t, step := Step.options }, tr)
  | (.error e, tr) => ({ st0 with error := some e, step := Step.upload }, tr)

/-- The submission flow: the FileUpload gate, then (only when it proceeds) the
extraction pipeline.  Also returns the gate outcome and the PDF page trace. -/
def submitFiles (st : AppState) (files : List UFile) :
    SubmitOutcome × AppState × List ℕ :=
  match handleSubmit files with
  | .idle => (.idle, st, [])
  | .rejected e => (.rejected e, { st with error := some e }, [])
  | .proceeded =>
    let r := handleFileProcessed st files
    (.proceeded, r.1, r.2)

/-- `handleQuizGenerate` (App.tsx lines 628-661).  The remote call
`generateQuizAPI` is an opaque external service; its outcome is the `llm`
argument.  On any failure (transport or parse) the error is stored and the flow
returns to `options`; `extractedText` is never written. -/
def handleQuizGenerate (st : AppState) (options : QuizOptions)
    (llm : Except String String) : AppState :=
  -- `if (!extractedText) return;`: falsy for both null and the empty string.
  if st.extractedText = none ∨ st.extractedText = some "" then st
  else
    -- the intermediate loading state (`setStep('loading'); setError(null);
    -- setCurrentQuizOptions(options)`) always ends in one of these states:
    match llm with
    | .error e =>
      { st with step := Step.options, error := some e, currentQuizOptions := some options }
    | .ok llmContent =>
      match fallbackParseToQuiz llmContent options with
      | .error e =>
        { st with step := Step.options, error := some e, currentQuizOptions := some options }
      | .ok quizData =>
        { st with step := Step.quiz, error := none, quiz := some quizData,
                  userAnswers := fun _ => none, currentQuizOptions := some options }

/-! ## Helper lemmas -/

/-- A quiz returned by the JSON path always has at least one question: the
empty case is mapped to `none` before the quiz is built. -/
theorem tryParseJsonQuiz_questions_ne_nil {raw : String} {opts : QuizOptions} {q : Quiz}
    (h : tryParseJsonQuiz raw opts = some q) : q.questions ≠ [] := by
  unfold tryParseJsonQuiz at h
  cases hE : extractJsonFromContent raw with
  | none => rw [hE] at h; simp at h
  | some s =>
    rw [hE] at h
    simp only at h
    cases hP : jsonParse s with
    | none => rw [hP] at h; simp at h
    | some parsed =>
      rw [hP] at h
      simp only at h
      split at h
      · simp at h
      · rename_i hne
        cases h
        simpa [List.isEmpty_iff] using hne

/-! ## C1 -/

/-- C1: for every raw completion string and every `QuizOptions` value,
`fallbackParseToQuiz` either throws the unparseable-content error or returns a
`Quiz` whose question list is non-empty; it never returns a quiz with zero
questions. -/
theorem fallbackParse_never_empty_C1 (raw : String) (opts : QuizOptions) :
    fallbackParseToQuiz raw opts = .error "Unable to parse quiz content into questions." ∨
    (∃ q, fallbackParseToQuiz raw opts = .ok q ∧ q.questions ≠ []) := by
  unfold fallbackParseToQuiz
  cases hJ : tryParseJsonQuiz raw opts with
  | some q =>
    right
    exact ⟨q, rfl, tryParseJsonQuiz_questions_ne_nil hJ⟩
  | none =>
    simp only
    split
    · exact Or.inl rfl
    · rename_i hne
      right
      refine ⟨_, rfl, ?_⟩
      simpa [List.isEmpty_iff] using hne

/-! ## C6 -/

/-- C6: the wire-tag normalization used by `mapQuizType` is idempotent on its
own outputs: each of the three canonical tags `"mcq"`, `"true_false"`,
`"open"` normalizes to itself. -/
theorem mapQuizType_idempotent_on_tags_C6 :
    mapQuizTypeNorm "mcq" = "mcq" ∧
    mapQuizTypeNorm "true_false" = "true_false" ∧
    mapQuizTypeNorm "open" = "open" := by
  refine ⟨?_, ?_, ?_⟩ <;> rfl

/-! ## C10 -/

/-- C10: the Math `$`-delimiter stripping in scoring is one-sided: only the
canonical answer is stripped, never the user's answer, so for canonical
answer `"42"` the user answer `"$42$"` is scored incorrect even though the
mirror case (canonical `"$42$"`, user `"42"`) is scored correct. -/
theorem math_strip_one_sided_C10 :
    isAnswerCorrect (some "$42$") "42" SubjectType.Math = false ∧
    isAnswerCorrect (some "42") "$42$" SubjectType.Math = true := by
  refine ⟨?_, ?_⟩ <;> rfl

/-! ## C5 -/

/-- Replacing one occurrence of `c` by `r` does not change whether a needle
avoiding both characters leads the list. -/
theorem leadsL_replFirst (c r : Char) :
    ∀ (l needle : List Char), (∀ x ∈ needle, x ≠ c ∧ x ≠ r) →
      leadsL needle (replFirst c r l) = leadsL needle l := by
  intro l
  induction l with
  | nil => intro needle _; rfl
  | cons x xs ih =>
    intro needle hn
    cases needle with
    | nil => rfl
    | cons n ns =>
      have hnc := hn n (by simp)
      by_cases hx : x = c
      · subst hx
        simp only [replFirst, if_pos rfl, leadsL]
        have h1 : (n = r) = False := by simp [hnc.2]
        have h2 : (n = x) = False := by simp [hnc.1]
        simp [decide_eq_false hnc.2, decide_eq_false hnc.1]
      · simp only [replFirst, if_neg hx, leadsL]
        rw [ih ns (fun y hy => hn y (by simp [hy]))]

/-- Replacing one occurrence of `c` by `r` does not change whether a needle
avoiding both characters occurs as a substring. -/
theorem hasSubL_replFirst (c r : Char) :
    ∀ (l needle : List Char), needle ≠ [] → (∀ x ∈ needle, x ≠ c ∧ x ≠ r) →
      hasSubL needle (replFirst c r l) = hasSubL needle l := by
  intro l
  induction l with
  | nil => intro needle _ _; rfl
  | cons x xs ih =>
    intro needle hne hn
    by_cases hx : x = c
    · subst hx
      simp only [replFirst, if_pos rfl, hasSubL]
      congr 1
      cases needle with
      | nil => rfl
      | cons n ns =>
        have hnc := hn n (by simp)
        simp [leadsL, decide_eq_false hnc.2, decide_eq_false hnc.1]
    · simp only [replFirst, if_neg hx, hasSubL]
      rw [ih needle hne hn]
      congr 1
      cases needle with
      | nil => rfl
      | cons n ns =>
        simp only [leadsL]
        congr 1
        exact leadsL_replFirst c r xs ns (fun y hy => hn y (by simp [hy]))

/-- C5 counterexample: on the input string `"short"` with fallback
`MultipleChoice`, `normalizeQuizType` returns `Open`, while `mapQuizType`'s
normalization assigns the wire tag `"mcq"`, whose corresponding type (and the
fallback the tag correspondence predicts) is `MultipleChoice`. -/
theorem quizType_refinement_counterexample_C5 :
    mapQuizTypeNorm "short" = "mcq" ∧
    normalizeQuizType (some (.str "short")) QuizType.MultipleChoice = QuizType.Open ∧
    ¬ (normalizeQuizType (some (.str "short")) QuizType.MultipleChoice =
        if mapQuizTypeNorm "short" = "true_false" then QuizType.TrueFalse
        else if mapQuizTypeNorm "short" = "open" then QuizType.Open
        else QuizType.MultipleChoice) := by
  refine ⟨rfl, rfl, ?_⟩
  decide

/-- C5 (amended): `normalizeQuizType` agrees with the type corresponding to
`mapQuizType`'s wire tag — `true_false ↦ TrueFalse`, `open ↦ Open`, and the
fallback exactly when `mapQuizType` would default — except that input strings
containing `"short"` (and neither `"true"`, `"false"` nor `"open"`) are mapped
to `Open` rather than to the fallback. -/
theorem quizType_refinement_C5_amended (s : String) (fb : QuizType) :
    normalizeQuizType (some (.str s)) fb =
      (if mapQuizTypeNorm s = "true_false" then QuizType.TrueFalse
       else if mapQuizTypeNorm s = "open" then QuizType.Open
       else if hasSub (jsLower s) "short" then QuizType.Open
       else fb) := by
  have hchars : ∀ (w : List Char), w ≠ [] → (∀ x ∈ w, x ≠ '-' ∧ x ≠ '_' ∧ x ≠ ' ') →
      hasSubL w (replFirst ' ' '_' (replFirst '-' '_' (jsLower s).data)) =
        hasSubL w (jsLower s).data := by
    intro w hne hw
    rw [hasSubL_replFirst ' ' '_' _ w hne (fun x hx => ⟨(hw x hx).2.2, (hw x hx).2.1⟩),
       hasSubL_replFirst '-' '_' _ w hne (fun x hx => ⟨(hw x hx).1, (hw x hx).2.1⟩)]
  have htrue := hchars ['t', 'r', 'u', 'e'] (by decide) (by decide)
  have hfalse := hchars ['f', 'a', 'l', 's', 'e'] (by decide) (by decide)
  have hopen := hchars ['o', 'p', 'e', 'n'] (by decide) (by decide)
  unfold normalizeQuizType mapQuizTypeNorm
  simp only [hasSub]
  simp only [htrue, hfalse, hopen]
  rcases Bool.eq_false_or_eq_true (hasSubL ['t', 'r', 'u', 'e'] (jsLower s).data) with hT | hT <;>
    rcases Bool.eq_false_or_eq_true (hasSubL ['f', 'a', 'l', 's', 'e'] (jsLower s).data) with hF | hF <;>
      rcases Bool.eq_false_or_eq_true (hasSubL ['o', 'p', 'e', 'n'] (jsLower s).data) with hO | hO <;>
        rcases Bool.eq_false_or_eq_true (hasSubL ['s', 'h', 'o', 'r', 't'] (jsLower s).data) with hS | hS <;>
          simp only [hT, hF, hO, hS] <;> cases fb <;> decide

/-! ## C4 -/

/-- C4: a raw JSON question with non-empty question text whose resolved type is
TrueFalse and whose resolved answer is neither `"True"` nor `"False"` is never
discarded: the mapper returns the fail-safe TrueFalse question with answer
`"True"`, options `["True", "False"]`, and the original explanation (or the
placeholder when absent). -/
theorem truefalse_failsafe_C4 (kvs : List (String × Json)) (fb : QuizType)
    (hq : jsTrim (resolvePrompt kvs) ≠ "")
    (hty : normalizeQuizType (resolveTypeRaw kvs) fb = QuizType.TrueFalse)
    (hT : normalizeAnswer (resolveAnswerRaw kvs) QuizType.TrueFalse none ≠ "True")
    (hF : normalizeAnswer (resolveAnswerRaw kvs) QuizType.TrueFalse none ≠ "False") :
    mapJsonQuestionToQuestion (.obj kvs) fb =
      some ⟨jsTrim (resolvePrompt kvs), some ["True", "False"], "True",
        (if resolveExplanation kvs = "" then "No explanation provided."
         else resolveExplanation kvs), QuizType.TrueFalse⟩ := by
  rw [show mapJsonQuestionToQuestion (.obj kvs) fb = mapJsonQuestionKVs kvs fb from rfl]
  simp only [mapJsonQuestionKVs]
  rw [if_neg hq]
  simp only [hty]
  simp [hT, hF]

/-- C4 witness: a concrete question whose `answer` field holds the
unrecognized string `"maybe"` with fallback type TrueFalse. -/
theorem truefalse_failsafe_C4_witness :
    mapJsonQuestionToQuestion
        (.obj [("question", .str "Is the sky green?"), ("answer", .str "maybe")])
        QuizType.TrueFalse =
      some ⟨"Is the sky green?", some ["True", "False"], "True",
        "No explanation provided.", QuizType.TrueFalse⟩ := by
  have h := truefalse_failsafe_C4
    [("question", .str "Is the sky green?"), ("answer", .str "maybe")] QuizType.TrueFalse
    (by decide) rfl (by decide) (by decide)
  exact h

/-! ## C3 -/

/-- Every element of a resolved options list is a non-empty string (empty
strings are filtered out by `normalizeOptions`). -/
theorem normalizeOptions_mem_ne_empty (o : Option Json) :
    ∀ s ∈ normalizeOptions o, s ≠ "" := by
  intro s hs
  cases o with
  | none => simp [normalizeOptions] at hs
  | some v =>
    cases v with
    | arr xs =>
      simp only [normalizeOptions, List.mem_filter] at hs
      simpa using hs.2
    | obj kvs =>
      simp only [normalizeOptions, List.mem_filter] at hs
      simpa using hs.2
    | null => simp [normalizeOptions] at hs
    | bool b => simp [normalizeOptions] at hs
    | num n => simp [normalizeOptions] at hs
    | str t => simp [normalizeOptions] at hs

/-- The end-to-end scenario completion from the spec (§8): JSON nested under a
`quiz` key inside a ```json fence, numeric answer `0`, options `["A", "B"]`. -/
def scenarioCompletion : String :=
  "Here is your quiz:\n```json\n\x7b\"quiz\":\x7b\"title\":\"T\",\"questions\":[\x7b\"question\":\"Q1\",\"options\":[\"A\",\"B\"],\"answer\":0,\"explanation\":\"E\"\x7d]\x7d\x7d\n```"

/-- The options value of the scenario: a Text request for MultipleChoice. -/
def scenarioOptions : QuizOptions := .text ⟨5, .MultipleChoice, .English⟩

/-- C3: for every MultipleChoice question whose raw answer is the number `n`
and whose resolved options list has an element at index `n`, the normalized
answer is `options[n]`; and the spec's end-to-end scenario completion
normalizes to a quiz titled `"T"` with exactly one MultipleChoice question
whose answer is `"A"`. -/
theorem mcq_numeric_answer_C3 :
    (∀ (kvs : List (String × Json)) (fb : QuizType) (jn : JNum) (n : ℕ) (q : Question),
      normalizeQuizType (resolveTypeRaw kvs) fb = QuizType.MultipleChoice →
      resolveAnswerRaw kvs = some (.num jn) →
      jn.isInt = true → jn.ival = (n : ℤ) →
      n < (normalizeOptions (resolveOptsRaw kvs)).length →
      mapJsonQuestionToQuestion (.obj kvs) fb = some q →
      q.answer = (normalizeOptions (resolveOptsRaw kvs)).getD n "") ∧
    fallbackParseToQuiz scenarioCompletion scenarioOptions =
      .ok ⟨"T", [⟨"Q1", some ["A", "B"], "A", "E", QuizType.MultipleChoice⟩]⟩ := by
  constructor
  · intro kvs fb jn n q hty hans hInt hval hlt hmap
    set l := normalizeOptions (resolveOptsRaw kvs) with hl
    have hne : l.getD n "" ≠ "" := by
      have hmem : l.getD n "" ∈ l := by
        rw [List.getD_eq_getElem l "" hlt]
        exact List.getElem_mem hlt
      exact normalizeOptions_mem_ne_empty _ _ hmem
    have hnval : jn.ival.toNat = n := by rw [hval]; rfl
    have hA : normalizeAnswer (some (.num jn)) QuizType.MultipleChoice (some l) = l.getD n "" := by
      rw [show normalizeAnswer (some (.num jn)) QuizType.MultipleChoice (some l) =
          (if jn.isInt ∧ 0 ≤ jn.ival ∧ jn.ival.toNat < (Option.getD (some l) []).length ∧
              (Option.getD (some l) []).getD jn.ival.toNat "" ≠ "" then
            (Option.getD (some l) []).getD jn.ival.toNat ""
          else answerFallback QuizType.MultipleChoice (some l)) from rfl]
      simp only [Option.getD_some, hnval]
      rw [if_pos ⟨hInt, by rw [hval]; exact Int.ofNat_nonneg n, hlt, hne⟩]
    rw [show mapJsonQuestionToQuestion (.obj kvs) fb = mapJsonQuestionKVs kvs fb from rfl] at hmap
    simp only [mapJsonQuestionKVs] at hmap
    have hq : jsTrim (resolvePrompt kvs) ≠ "" := by
      intro hqt
      rw [if_pos hqt] at hmap
      simp at hmap
    rw [if_neg hq] at hmap
    simp only [hty, hans, if_pos rfl, ← hl, hA] at hmap
    have hlne : l.isEmpty = false := by
      cases hcase : l with
      | nil => rw [hcase] at hlt; simp at hlt
      | cons a as => rfl
    simp [hlne, hne] at hmap
    rw [← hmap]
    simp [hA, hne]
    exact fun hc => hc.symm
  · rfl

/-- C3 witness: a concrete raw question with numeric answer `1` and options
`["A", "B"]` resolves to the answer `"B"`. -/
theorem mcq_numeric_answer_C3_witness :
    (mapJsonQuestionToQuestion
        (.obj [("question", .str "Q"), ("options", .arr [.str "A", .str "B"]),
               ("answer", .num ⟨true, 1, "1"⟩)])
        QuizType.MultipleChoice =
      some ⟨"Q", some ["A", "B"], "B", "No explanation provided.", QuizType.MultipleChoice⟩) ∧
    ("B" : String) =
      (normalizeOptions (resolveOptsRaw
        [("question", .str "Q"), ("options", .arr [.str "A", .str "B"]),
         ("answer", .num ⟨true, 1, "1"⟩)])).getD 1 "" := by
  refine ⟨rfl, ?_⟩
  exact (mcq_numeric_answer_C3.1
    [("question", .str "Q"), ("options", .arr [.str "A", .str "B"]),
     ("answer", .num ⟨true, 1, "1"⟩)]
    QuizType.MultipleChoice ⟨true, 1, "1"⟩ 1
    ⟨"Q", some ["A", "B"], "B", "No explanation provided.", QuizType.MultipleChoice⟩
    rfl rfl rfl rfl (by decide) rfl)

/-! ## C7 -/

/-- Placeholder question used only as the `getD` default in index-based
statements (never reachable when the index is in range). -/
def defaultQ : Question := ⟨"", none, "", "", QuizType.Open⟩

/-- Trimming fixes a list that starts and ends with non-whitespace. -/
theorem trimL_cons_concat (a b : Char) (xs : List Char)
    (ha : isJsWs a = false) (hb : isJsWs b = false) :
    trimL (a :: (xs ++ [b])) = a :: (xs ++ [b]) := by
  unfold trimL
  rw [List.dropWhile_cons, ha]
  simp only [Bool.false_eq_true, if_false, List.reverse_cons]
  rw [show (xs ++ [b]).reverse ++ [a] = b :: (xs.reverse ++ [a]) by simp]
  rw [List.dropWhile_cons, hb]
  simp

/-- The index-carrying counting loop agrees with counting over the index
range. -/
theorem countCorrectFrom_eq_countP (ua : ℕ → Option String) (st : SubjectType) :
    ∀ (qs : List Question) (i : ℕ),
      countCorrectFrom qs i ua st =
        (List.range qs.length).countP
          (fun k => isAnswerCorrect (ua (i + k)) ((qs.getD k defaultQ).answer) st) := by
  intro qs
  induction qs with
  | nil => intro i; rfl
  | cons q rest ih =>
    intro i
    show (if isAnswerCorrect (ua i) q.answer st then 1 else 0) + countCorrectFrom rest (i + 1) ua st = _
    rw [ih (i + 1)]
    simp only [List.length_cons, List.range_succ_eq_map, List.countP_cons, List.countP_map]
    have : (List.range rest.length).countP
        (fun k => isAnswerCorrect (ua (i + 1 + k)) ((rest.getD k defaultQ).answer) st) =
        (List.range rest.length).countP
          ((fun k => isAnswerCorrect (ua (i + k)) (((q :: rest).getD k defaultQ).answer) st) ∘
            Nat.succ) := by
      apply List.countP_congr
      intro x _
      have h1 : i + 1 + x = i + Nat.succ x := by omega
      simp [h1, List.getD_cons_succ]
    rw [this]
    simp [Nat.add_comm]

/-- C7: scoring compares the trimmed user string to the trimmed canonical
answer case-insensitively; for Math quizzes a single pair of enclosing `$`
delimiters is first stripped from the canonical answer (so canonical `"$42$"`
vs user `"42"` is correct); a missing user answer is always incorrect; and the
aggregate score is `round(100 * correct / total)`, with `0` on an empty quiz. -/
theorem scoring_engine_C7 :
    (∀ (c : String) (st : SubjectType), isAnswerCorrect none c st = false) ∧
    (∀ (u c : String), isAnswerCorrect (some u) c SubjectType.Text =
        decide (jsLower (jsTrim u) = jsLower (jsTrim c))) ∧
    (∀ (u m : String), isAnswerCorrect (some u) ("$" ++ m ++ "$") SubjectType.Math =
        decide (jsLower (jsTrim u) = jsLower (jsTrim m))) ∧
    isAnswerCorrect (some "42") "$42$" SubjectType.Math = true ∧
    (∀ (quiz : Quiz) (ua : ℕ → Option String) (st : SubjectType),
      (computeScore quiz ua st).2 =
        (List.range quiz.questions.length).countP
          (fun i => isAnswerCorrect (ua i) ((quiz.questions.getD i defaultQ).answer) st) ∧
      (computeScore quiz ua st).1 =
        (if quiz.questions.length = 0 then 0
         else jsRound (100 * ((computeScore quiz ua st).2 : ℚ) / (quiz.questions.length : ℚ)))) := by
  refine ⟨fun c st => rfl, fun u c => rfl, ?_, rfl, ?_⟩
  · intro u m
    have hdata : ("$" ++ m ++ "$").data = '$' :: (m.data ++ ['$']) := by
      rw [String.data_append, String.data_append]
      rfl
    have htrim : jsTrim ("$" ++ m ++ "$") = ⟨'$' :: (m.data ++ ['$'])⟩ := by
      unfold jsTrim
      rw [hdata, trimL_cons_concat '$' '$' m.data rfl rfl]
    show (let userAnswerClean := jsTrim u
          let cc0 := jsTrim ("$" ++ m ++ "$")
          let correctAnswerClean :=
            if SubjectType.Math = SubjectType.Math then
              if leadsL ['$'] cc0.data ∧ cc0.data.getLast? = some '$' then
                jsTrim ⟨stripEnclosing cc0.data⟩
              else cc0
            else cc0
          decide (jsLower userAnswerClean = jsLower correctAnswerClean)) = _
    have hcond : leadsL ['$'] ('$' :: (m.data ++ ['$'])) = true ∧
        ('$' :: (m.data ++ ['$'])).getLast? = some '$' := by
      refine ⟨rfl, ?_⟩
      rw [show ('$' :: (m.data ++ ['$'])) = ('$' :: m.data) ++ ['$'] by simp]
      exact List.getLast?_concat _
    have hstrip : stripEnclosing ('$' :: (m.data ++ ['$'])) = m.data := by
      unfold stripEnclosing
      rw [if_neg (by simp)]
      simp
    simp only [htrim, if_pos rfl]
    rw [if_pos hcond, hstrip]
    rfl
  · intro quiz ua st
    constructor
    · show countCorrectFrom quiz.questions 0 ua st = _
      rw [countCorrectFrom_eq_countP ua st quiz.questions 0]
      apply List.countP_congr
      intro x _
      simp
    · show (if 0 < quiz.questions.length then
          jsRound ((countCorrectFrom quiz.questions 0 ua st : ℚ) / (quiz.questions.length : ℚ) * 100)
        else 0) = _
      by_cases hn : quiz.questions.length = 0
      · rw [hn]
        simp
      · rw [if_pos (Nat.pos_of_ne_zero hn), if_neg hn]
        show jsRound _ = jsRound _
        congr 1
        show (countCorrectFrom quiz.questions 0 ua st : ℚ) / (quiz.questions.length : ℚ) * 100 =
          100 * ((computeScore quiz ua st).2 : ℚ) / (quiz.questions.length : ℚ)
        show (countCorrectFrom quiz.questions 0 ua st : ℚ) / (quiz.questions.length : ℚ) * 100 =
          100 * (countCorrectFrom quiz.questions 0 ua st : ℚ) / (quiz.questions.length : ℚ)
        ring

/-! ## C8 -/

/-- C8: when the selected batch contains a PDF over the 15-page ceiling, the
submission is rejected with the page-limit error before extraction begins (no
page is ever read, both at the gate and inside the service, whose own check
throws before the page loop), and the stored extracted text is left untouched
(still `null` when it was `null`). -/
theorem pdf_page_limit_C8 (st : AppState) (files : List UFile) (d : PdfDoc)
    (hFind : files.find? isPdfFile = some (.pdf d))
    (hPages : 15 < d.numPages) :
    submitFiles st files =
      (.rejected "errors.pdfPageLimit", { st with error := some "errors.pdfPageLimit" }, []) ∧
    extractTextFromPdfT d = (.error "PDF exceeds the 15-page limit.", []) ∧
    (submitFiles st files).2.1.extractedText = st.extractedText := by
  have hne : files.isEmpty = false := by
    cases files with
    | nil => simp [List.find?] at hFind
    | cons f fs => rfl
  have hsub : handleSubmit files = .rejected "errors.pdfPageLimit" := by
    unfold handleSubmit
    rw [hne]
    simp only [Bool.false_eq_true, if_false, hFind]
    rw [if_pos]
    exact hPages
  have h1 : submitFiles st files =
      (.rejected "errors.pdfPageLimit", { st with error := some "errors.pdfPageLimit" }, []) := by
    unfold submitFiles
    rw [hsub]
  refine ⟨h1, ?_, ?_⟩
  · unfold extractTextFromPdfT
    rw [if_pos hPages]
    rfl
  · rw [h1]

/-- C8 witness: a one-file batch holding a 20-page PDF against a fresh state. -/
theorem pdf_page_limit_C8_witness :
    submitFiles ⟨Step.upload, none, none, none, fun _ => none, none⟩ [.pdf ⟨20, []⟩] =
      (.rejected "errors.pdfPageLimit",
        ⟨Step.upload, some "errors.pdfPageLimit", none, none, fun _ => none, none⟩, []) ∧
    extractTextFromPdfT ⟨20, []⟩ = (.error "PDF exceeds the 15-page limit.", []) := by
  have h := pdf_page_limit_C8 ⟨Step.upload, none, none, none, fun _ => none, none⟩
    [.pdf ⟨20, []⟩] ⟨20, []⟩ rfl (by decide)
  exact ⟨h.1, h.2.1⟩

/-! ## C9 -/

/-- C9: a failed generation attempt never corrupts previously-held state —
`extractedText` is preserved by `handleQuizGenerate` in every branch, and on a
transport or parse failure the error is recorded and the flow returns to the
options step so the user can retry without re-extracting. -/
theorem generation_failure_frame_C9 (st : AppState) (opts : QuizOptions)
    (llm : Except String String) :
    (handleQuizGenerate st opts llm).extractedText = st.extractedText ∧
    (∀ t e, st.extractedText = some t → t ≠ "" → llm = .error e →
      (handleQuizGenerate st opts llm).step = Step.options ∧
      (handleQuizGenerate st opts llm).error = some e) ∧
    (∀ t c e, st.extractedText = some t → t ≠ "" → llm = .ok c →
      fallbackParseToQuiz c opts = .error e →
      (handleQuizGenerate st opts llm).step = Step.options ∧
      (handleQuizGenerate st opts llm).error = some e) := by
  have hguard : ∀ t, st.extractedText = some t → t ≠ "" →
      ¬(st.extractedText = none ∨ st.extractedText = some "") := by
    intro t hx ht h
    cases h with
    | inl h0 => rw [hx] at h0; exact Option.noConfusion h0
    | inr h0 => rw [hx] at h0; exact ht (Option.some.injEq .. ▸ h0)
  refine ⟨?_, ?_, ?_⟩
  · unfold handleQuizGenerate
    by_cases hg : st.extractedText = none ∨ st.extractedText = some ""
    · rw [if_pos hg]
    · rw [if_neg hg]
      cases llm with
      | error e => rfl
      | ok c =>
        cases hp : fallbackParseToQuiz c opts with
        | error e => simp only [hp]
        | ok quizData => simp only [hp]
  · intro t e hx ht hllm
    unfold handleQuizGenerate
    rw [if_neg (hguard t hx ht), hllm]
    exact ⟨rfl, rfl⟩
  · intro t c e hx ht hllm hparse
    unfold handleQuizGenerate
    rw [if_neg (hguard t hx ht), hllm]
    simp [hparse]

/-- C9 witness: a state holding extracted text survives a failed transport
call: the text is untouched and the flow is back at options with the error. -/
theorem generation_failure_frame_C9_witness :
    (handleQuizGenerate ⟨Step.options, none, some "doc text", none, fun _ => none, none⟩
        (.text ⟨5, QuizType.Open, Language.English⟩) (.error "boom")).extractedText =
      some "doc text" ∧
    (handleQuizGenerate ⟨Step.options, none, some "doc text", none, fun _ => none, none⟩
        (.text ⟨5, QuizType.Open, Language.English⟩) (.error "boom")).step = Step.options ∧
    (handleQuizGenerate ⟨Step.options, none, some "doc text", none, fun _ => none, none⟩
        (.text ⟨5, QuizType.Open, Language.English⟩) (.error "boom")).error = some "boom" := by
  have h := generation_failure_frame_C9
    ⟨Step.options, none, some "doc text", none, fun _ => none, none⟩
    (.text ⟨5, QuizType.Open, Language.English⟩) (.error "boom")
  have h2 := h.2.1 "doc text" "boom" rfl (by decide) rfl
  exact ⟨h.1, h2.1, h2.2⟩

/-! ## C2 -/

/-- A JSON object the normalizer accepts unwrapped whose `answer` string holds
a triple backtick.  Wrapping it in a fenced block truncates the capture at that
inner backtick run, so the wrapped form no longer parses. -/
def tripleTickJson : String :=
  "\x7b\"questions\":[\x7b\"question\":\"Q\",\"answer\":\"a```b\"\x7d]\x7d"

/-- Options under which the counterexample is normalized (Open questions, so no
options list is needed). -/
def openTextOptions : QuizOptions := .text ⟨5, QuizType.Open, Language.English⟩

/-- C2 counterexample: the claim fails at a JSON text containing ``` inside a
string literal.  It is accepted unwrapped and yields a one-question quiz, but
its ```json-fenced wrapping extracts only the prefix before the inner backticks
and yields nothing. -/
theorem fenced_equiv_counterexample_C2 :
    extractJsonFromContent tripleTickJson = some tripleTickJson ∧
    tryParseJsonQuiz tripleTickJson openTextOptions =
      some ⟨"Generated Quiz", [⟨"Q", none, "a```b", "No explanation provided.", QuizType.Open⟩]⟩ ∧
    tryParseJsonQuiz ("```json\n" ++ tripleTickJson ++ "\n```") openTextOptions = none ∧
    tryParseJsonQuiz ("```json\n" ++ tripleTickJson ++ "\n```") openTextOptions ≠
      tryParseJsonQuiz tripleTickJson openTextOptions := by
  refine ⟨rfl, rfl, rfl, ?_⟩
  rw [show tryParseJsonQuiz ("```json\n" ++ tripleTickJson ++ "\n```") openTextOptions =
      none from rfl]
  rw [show tryParseJsonQuiz tripleTickJson openTextOptions =
      some ⟨"Generated Quiz", [⟨"Q", none, "a```b", "No explanation provided.", QuizType.Open⟩]⟩
      from rfl]
  simp

/-- A list without the fence substring splits to `none`. -/
theorem splitFence_eq_none (cs : List Char) (h : hasSubL fenceChars cs = false) :
    splitFence cs = none := by
  induction cs with
  | nil => rfl
  | cons x xs ih =>
    rw [show hasSubL fenceChars (x :: xs) =
        (leadsL fenceChars (x :: xs) || hasSubL fenceChars xs) from rfl] at h
    rw [Bool.or_eq_false_iff] at h
    unfold splitFence
    rw [h.1]
    simp [ih h.2]

/-- Prepending to a fence-free list keeps the lead test false, even when the
list continues with a newline. -/
theorem leadsL_fence_append_nl (l rest : List Char) (hl : leadsL fenceChars l = false) :
    leadsL fenceChars (l ++ '\n' :: rest) = false := by
  match l with
  | [] => rfl
  | [a] =>
    show (decide ('`' = a) && leadsL ['`', '`'] ('\n' :: rest)) = false
    rw [show leadsL ['`', '`'] ('\n' :: rest) = false from rfl]
    exact Bool.and_false _
  | [a, b] =>
    show (decide ('`' = a) && (decide ('`' = b) && leadsL ['`'] ('\n' :: rest))) = false
    rw [show leadsL ['`'] ('\n' :: rest) = false from rfl]
    simp
  | a :: b :: d :: tail => exact hl

/-- Splitting a list of the form `r ++ "\n```" ++ ys` at the fence, when `r`
itself is fence-free: the capture is `r ++ "\n"`. -/
theorem splitFence_r_nl (ys : List Char) :
    ∀ (r : List Char), hasSubL fenceChars r = false →
      splitFence (r ++ '\n' :: '`' :: '`' :: '`' :: ys) = some (r ++ ['\n'], ys) := by
  intro r
  induction r with
  | nil => intro _; rfl
  | cons x xs ih =>
    intro h
    rw [show hasSubL fenceChars (x :: xs) =
        (leadsL fenceChars (x :: xs) || hasSubL fenceChars xs) from rfl] at h
    rw [Bool.or_eq_false_iff] at h
    have hlead : leadsL fenceChars ((x :: xs) ++ '\n' :: '`' :: '`' :: '`' :: ys) = false :=
      leadsL_fence_append_nl (x :: xs) _ h.1
    rw [List.cons_append]
    unfold splitFence
    rw [← List.cons_append, hlead]
    simp [ih h.2]

/-- Dropping a prefix preserves fence-freeness. -/
theorem hasSubL_dropWhile (p : Char → Bool) (needle : List Char) :
    ∀ (l : List Char), hasSubL needle l = false → hasSubL needle (l.dropWhile p) = false := by
  intro l
  induction l with
  | nil => intro h; exact h
  | cons x xs ih =>
    intro h
    rw [show hasSubL needle (x :: xs) =
        (leadsL needle (x :: xs) || hasSubL needle xs) from rfl] at h
    rw [Bool.or_eq_false_iff] at h
    rw [List.dropWhile_cons]
    by_cases hp : p x = true
    · rw [if_pos hp]
      exact ih h.2
    · rw [if_neg hp]
      show (leadsL needle (x :: xs) || hasSubL needle xs) = false
      rw [h.1, h.2]
      rfl

/-- Extraction from a fence-free string reduces to the unwrapped check. -/
theorem extract_of_no_fence (j : String) (h : hasSubL fenceChars j.data = false) :
    extractJsonFromContent j = unwrappedJsonCheck j := by
  unfold extractJsonFromContent
  rw [splitFence_eq_none j.data h]

/-- Extraction from the ```json-fenced wrapping of a fence-free string with
some non-whitespace yields exactly the trimmed string. -/
theorem extract_wrapped (j : String) (hNo : hasSubL fenceChars j.data = false)
    (hr : j.data.dropWhile isJsWs ≠ []) :
    extractJsonFromContent ("```json\n" ++ j ++ "\n```") = some ⟨trimL j.data⟩ := by
  have hdata : ("```json\n" ++ j ++ "\n```").data =
      '`' :: '`' :: '`' :: 'j' :: 's' :: 'o' :: 'n' :: '\n' ::
        (j.data ++ '\n' :: '`' :: '`' :: '`' :: []) := by
    rw [String.data_append, String.data_append]
    show (['`', '`', '`', 'j', 's', 'o', 'n', '\n'] ++ j.data) ++ ['\n', '`', '`', '`'] = _
    simp
  have hsplit1 : splitFence ('`' :: '`' :: '`' :: 'j' :: 's' :: 'o' :: 'n' :: '\n' ::
      (j.data ++ '\n' :: '`' :: '`' :: '`' :: [])) =
      some ([], 'j' :: 's' :: 'o' :: 'n' :: '\n' ::
        (j.data ++ '\n' :: '`' :: '`' :: '`' :: [])) := rfl
  set r := j.data.dropWhile isJsWs with hrdef
  have hrsub : hasSubL fenceChars r = false := hasSubL_dropWhile isJsWs fenceChars j.data hNo
  have hdrop : List.dropWhile isJsWs
      (j.data ++ '\n' :: '`' :: '`' :: '`' :: []) = r ++ '\n' :: '`' :: '`' :: '`' :: [] := by
    rw [List.dropWhile_append]
    rw [← hrdef]
    cases hc : r with
    | nil => exact absurd hc hr
    | cons c cs =>
      have hch : isJsWs c = false := by
        have := List.head?_dropWhile_not isJsWs j.data
        rw [← hrdef, hc] at this
        simpa using this
      simp [hch]
  unfold extractJsonFromContent
  rw [hdata, hsplit1]
  simp only
  rw [show leadsCI ['j', 's', 'o', 'n'] ('j' :: 's' :: 'o' :: 'n' :: '\n' ::
      (j.data ++ '\n' :: '`' :: '`' :: '`' :: [])) = true from rfl]
  simp only [if_pos rfl, if_true, List.drop_succ_cons, List.drop_zero]
  rw [show List.dropWhile isJsWs ('\n' :: (j.data ++ '\n' :: '`' :: '`' :: '`' :: [])) =
      List.dropWhile isJsWs (j.data ++ '\n' :: '`' :: '`' :: '`' :: []) from rfl]
  rw [hdrop, splitFence_r_nl [] r hrsub]
  have htrim : trimL (r ++ ['\n']) = trimL j.data := by
    unfold trimL
    have h1 : List.dropWhile isJsWs (r ++ ['\n']) = r ++ ['\n'] := by
      rw [List.dropWhile_append]
      cases hc : r with
      | nil => exact absurd hc hr
      | cons c cs =>
        have hch : isJsWs c = false := by
          have := List.head?_dropWhile_not isJsWs j.data
          rw [← hrdef, hc] at this
          simpa using this
        have h2 : List.dropWhile isJsWs (c :: cs) = c :: cs := by
          rw [List.dropWhile_cons, hch]
          simp
        simp [h2]
    rw [h1, ← hrdef]
    rw [show (r ++ ['\n']).reverse = '\n' :: r.reverse by simp]
    rw [show List.dropWhile isJsWs ('\n' :: r.reverse) = List.dropWhile isJsWs r.reverse from rfl]
  show some ({ data := trimL (r ++ ['\n']) } : String) = some { data := trimL j.data }
  rw [htrim]

/-- C2 (amended): for every JSON text that the normalizer accepts unwrapped and
that does not contain a triple backtick, normalizing the ```json-fenced
wrapping produces exactly the same result as normalizing the text unwrapped,
for every options value.  (The counterexample forces the no-``` restriction:
an inner fence truncates the capture.) -/
theorem fenced_block_equiv_C2_amended (j : String) (opts : QuizOptions)
    (hNo : hasSub j "```" = false)
    (s : String) (hAcc : unwrappedJsonCheck j = some s) :
    tryParseJsonQuiz ("```json\n" ++ j ++ "\n```") opts = tryParseJsonQuiz j opts := by
  have hNoL : hasSubL fenceChars j.data = false := hNo
  have htne : trimL j.data ≠ [] := by
    intro h0
    unfold unwrappedJsonCheck at hAcc
    rw [h0] at hAcc
    exact Option.noConfusion hAcc
  have hr : j.data.dropWhile isJsWs ≠ [] := by
    intro h0
    apply htne
    unfold trimL
    rw [h0]
    rfl
  have hsval : s = ⟨trimL j.data⟩ := by
    unfold unwrappedJsonCheck at hAcc
    revert hAcc
    cases ht : trimL j.data with
    | nil => exact fun hAcc => absurd ht htne
    | cons c rest =>
      simp only
      split
      · intro hAcc
        cases hAcc
        rfl
      · intro hAcc
        exact absurd hAcc (by simp)
  have hE1 : extractJsonFromContent j = some ⟨trimL j.data⟩ := by
    rw [extract_of_no_fence j hNoL, hAcc, hsval]
  have hE2 : extractJsonFromContent ("```json\n" ++ j ++ "\n```") = some ⟨trimL j.data⟩ :=
    extract_wrapped j hNoL hr
  unfold tryParseJsonQuiz
  rw [hE1, hE2]

/-- C2 amended witness: a small fence-free JSON array accepted unwrapped. -/
theorem fenced_block_equiv_C2_amended_witness :
    tryParseJsonQuiz ("```json\n" ++ "[1, 2]" ++ "\n```") openTextOptions =
      tryParseJsonQuiz "[1, 2]" openTextOptions := by
  exact fenced_block_equiv_C2_amended "[1, 2]" openTextOptions (by rfl) "[1, 2]" (by rfl)

end QuizApp
